import Mathlib

/-!
Verification of the gmail-deepclean inbox-processing core.

The Go sources are shallowly embedded here:
* `api/inbox_processor.go` (EmailMetadata, EmailStats, InboxProcessor,
  extractEmailAddress, processInbox, processMessage, GetTopSenders,
  ProcessorRegistry) and
* `api/inbox_handlers.go` (the four HTTP handlers slicing the access token).

Modelling conventions:
* `time.Time` is modelled as `Nat`, with `0` playing the role of Go's zero
  value (`IsZero` becomes `= 0`).  `time.Parse` and
  `Time.Format("2006-01-02")` are external library calls, so they are passed
  in as function parameters (`parse`, `fd`).
* Go maps `map[string]int` / `map[string]int64` are modelled as total
  functions defaulting to `0`, which is exactly the read/update semantics of
  Go map indexing with `++` / `+=`.  Map iteration order is unspecified in
  Go, so iteration key lists are taken as parameters constrained to be the
  map's key set.
* Network calls (`Users.Messages.List`, `Users.Messages.Get`) are external:
  they are parameters returning `Option` values, `none` standing for a
  failed call (a non-nil Go `error`).
* Goroutines that are joined by a `sync.WaitGroup` before the state is read
  again are modelled by a fold over the dispatched work items; all stats
  updates are performed under one mutex in the source, and their
  commutativity is proved below, so a fold is a faithful serialisation.
* Go string/byte slicing `s[:n]` panics when `n > len(s)`; a panic is
  modelled as `none`.
-/

/-- Go `time.Time`, reduced to what the program observes: `0` is the zero
value (`IsZero`), anything else a successfully parsed timestamp. -/
abbrev GoTime := Nat

/-- `EmailMetadata` from inbox_processor.go. -/
structure EmailMetadata where
  ID : String
  ThreadID : String
  From : String
  To : List String
  Subject : String
  Date : GoTime
  Snippet : String
  LabelIDs : List String
  SizeEstimate : Int
  deriving Repr, DecidableEq

/-- `EmailStats` from inbox_processor.go; the four Go maps become total
functions defaulting to zero (Go map read semantics). -/
@[ext]
structure EmailStats where
  FromCount : String → Nat
  ToCount : String → Nat
  FromSize : String → Int
  DateCount : String → Nat
  TotalEmails : Nat

/-- `NewEmailStats()`: four empty maps, zero total. -/
def emptyStats : EmailStats :=
  { FromCount := fun _ => 0
    ToCount := fun _ => 0
    FromSize := fun _ => 0
    DateCount := fun _ => 0
    TotalEmails := 0 }

/-- One `m[k]++` update on a Go `map[string]int`. -/
def bump (f : String → Nat) (k : String) : String → Nat :=
  fun s => if s = k then f s + 1 else f s

/-- The statistics-update section of `processMessage` (the code between
`p.stats.mu.Lock()` and `p.stats.mu.Unlock()`): sender count, sender size,
one recipient count per `To` entry, and the day count when the date is not
the zero value.  `fd` models `Time.Format("2006-01-02")`. -/
def recordStats (fd : GoTime → String) (m : EmailMetadata) (st : EmailStats) : EmailStats :=
  { FromCount := bump st.FromCount m.From
    FromSize := fun s => if s = m.From then st.FromSize s + m.SizeEstimate else st.FromSize s
    ToCount := m.To.foldl (fun g t => bump g t) st.ToCount
    DateCount := if m.Date = 0 then st.DateCount else bump st.DateCount (fd m.Date)
    TotalEmails := st.TotalEmails }

/-- Folding a batch of extracted records into the statistics. -/
def runRecords (fd : GoTime → String) (ms : List EmailMetadata) (st : EmailStats) : EmailStats :=
  ms.foldl (fun s m => recordStats fd m s) st

/-- Index of the first character satisfying `p` (the forward scan in
`extractEmailAddress`). -/
def findIdxFrom (p : Char → Bool) : List Char → Option Nat
  | [] => none
  | c :: cs => if p c then some 0 else (findIdxFrom p cs).map (· + 1)

/-- Index of the last character satisfying the backward scan for a closing
bracket in `extractEmailAddress`. -/
def lastIdxGt (cs : List Char) : Option Nat :=
  (findIdxFrom (fun c => c == '>') cs.reverse).map (fun j => cs.length - 1 - j)

/-- The `start` variable of `extractEmailAddress`: the position right after
the first `<`, or 0 when there is none. -/
def startIdx (cs : List Char) : Nat :=
  match findIdxFrom (fun c => c == '<') cs with
  | some i => i + 1
  | none => 0

/-- The `end` variable of `extractEmailAddress`: the position of the last
`>`, or the length when there is none. -/
def stopIdx (cs : List Char) : Nat :=
  match lastIdxGt cs with
  | some i => i
  | none => cs.length

/-- `extractEmailAddress` from inbox_processor.go: when `start < end` the
byte slice `header[start:end]` is returned, otherwise the whole header
unchanged. -/
def extractEmailAddress (header : String) : String :=
  if startIdx header.toList < stopIdx header.toList then
    String.mk ((header.toList.drop (startIdx header.toList)).take
      (stopIdx header.toList - startIdx header.toList))
  else header

/-- Written from the spec's words, not the source: the "entire trimmed
value" that the specification says a bracket-free header reduces to
(leading and trailing whitespace removed).  Used only to compare the
specified behaviour with the code's. -/
def specTrim (s : String) : String :=
  String.mk (((s.toList.dropWhile (fun c => c.isWhitespace)).reverse.dropWhile
    (fun c => c.isWhitespace)).reverse)

/-- Go constant `time.RFC1123Z`. -/
def timeRFC1123Z : String := "Mon, 02 Jan 2006 15:04:05 -0700"

/-- Go constant `time.RFC1123`. -/
def timeRFC1123 : String := "Mon, 02 Jan 2006 15:04:05 MST"

/-- The `formats` slice that `processMessage` tries after the first
`time.Parse(time.RFC1123Z, ...)` attempt fails. -/
def goFormats : List String :=
  [timeRFC1123Z,
   timeRFC1123,
   "Mon, 2 Jan 2006 15:04:05 -0700",
   "Mon, 2 Jan 2006 15:04:05 -0700 (MST)"]

/-- First format in `fmts` that parses `v`; the loop body
`for _, format := range formats { if ... break }`. -/
def firstParse (parse : String → String → Option GoTime) : List String → String → Option GoTime
  | [], _ => none
  | f :: fs, v =>
    match parse f v with
    | some t => some t
    | none => firstParse parse fs v

/-- The whole date-parsing logic of the `"Date"` header case: try
RFC1123Z, then the `formats` list in order. -/
def tryParseDate (parse : String → String → Option GoTime) (v : String) : Option GoTime :=
  match parse timeRFC1123Z v with
  | some t => some t
  | none => firstParse parse goFormats v

/-- One name/value pair of `msg.Payload.Headers`. -/
structure RawHeader where
  Name : String
  Value : String
  deriving Repr, DecidableEq

/-- The part of a `gmail.Message` (with `Format("full")`) that
`processMessage` reads. -/
structure RawMessage where
  Id : String
  ThreadId : String
  LabelIds : List String
  Snippet : String
  SizeEstimate : Int
  Headers : List RawHeader
  deriving Repr, DecidableEq

/-- The `metadata` value of `processMessage` before the header loop. -/
def initMetadata (msg : RawMessage) : EmailMetadata :=
  { ID := msg.Id
    ThreadID := msg.ThreadId
    From := ""
    To := []
    Subject := ""
    Date := 0
    Snippet := msg.Snippet
    LabelIDs := msg.LabelIds
    SizeEstimate := msg.SizeEstimate }

/-- One iteration of the `switch header.Name` loop of `processMessage`.
`parse` models `time.Parse`. -/
def applyHeader (parse : String → String → Option GoTime) (md : EmailMetadata)
    (hd : RawHeader) : EmailMetadata :=
  if hd.Name = "From" then { md with From := extractEmailAddress hd.Value }
  else if hd.Name = "To" then { md with To := md.To ++ [extractEmailAddress hd.Value] }
  else if hd.Name = "Subject" then { md with Subject := hd.Value }
  else if hd.Name = "Date" then
    match tryParseDate parse hd.Value with
    | some t => { md with Date := t }
    | none => md
  else md

/-- The metadata-extraction part of `processMessage`: initialise, then run
the header loop. -/
def extractMetadata (parse : String → String → Option GoTime) (msg : RawMessage) : EmailMetadata :=
  msg.Headers.foldl (applyHeader parse) (initMetadata msg)

/-- The `InboxProcessor` fields that the program mutates (`token` and
`service` are opaque external handles and are left out). -/
structure ProcState where
  emails : List EmailMetadata
  stats : EmailStats
  isProcessing : Bool

/-- `NewInboxProcessor`: empty collection, fresh stats, not running. -/
def initProc : ProcState :=
  { emails := [], stats := emptyStats, isProcessing := false }

/-- `processMessage`: fetch the full message (`fetch mid = none` models a
failed `Users.Messages.Get` call, which is logged and makes the function
return with no state change); on success extract metadata, append it to
`p.emails` and record it into the statistics.  The function has no error
return in the source: a per-message failure never surfaces to the caller. -/
def processMessage (parse : String → String → Option GoTime) (fd : GoTime → String)
    (fetch : String → Option RawMessage) (mid : String) (p : ProcState) : ProcState :=
  match fetch mid with
  | none => p
  | some msg =>
    let md := extractMetadata parse msg
    { p with emails := p.emails ++ [md], stats := recordStats fd md p.stats }

/-- The fan-out over one page's message ids.  The goroutines are joined by
`wg.Wait()` before the loop continues, and every statistics update happens
under `stats.mu`, so the page is modelled as a fold over its ids. -/
def processIds (parse : String → String → Option GoTime) (fd : GoTime → String)
    (fetch : String → Option RawMessage) (ids : List String) (p : ProcState) : ProcState :=
  ids.foldl (fun st i => processMessage parse fd fetch i st) p

/-- One page response of `Users.Messages.List`. -/
structure ListPage where
  Messages : List String
  NextPageToken : String
  deriving Repr, DecidableEq

/-- Everything `processInbox` does for one successfully listed page:
process all ids, then `stats.TotalEmails += len(resp.Messages)`. -/
def pageStep (parse : String → String → Option GoTime) (fd : GoTime → String)
    (fetch : String → Option RawMessage) (pg : ListPage) (p : ProcState) : ProcState :=
  let p1 := processIds parse fd fetch pg.Messages p
  { p1 with stats := { p1.stats with TotalEmails := p1.stats.TotalEmails + pg.Messages.length } }

/-- The paging loop of `processInbox`.  `listM` models the page-level
`Users.Messages.List` call (`none` = failed call, which breaks the loop).
The returned list is the trace of page tokens for which a listing request
was issued.  The Go loop has no bound, so a fuel argument caps the number
of iterations modelled; fuel 0 issues no request. -/
def processPages (parse : String → String → Option GoTime) (fd : GoTime → String)
    (fetch : String → Option RawMessage) (listM : String → Option ListPage) :
    Nat → String → ProcState → ProcState × List String
  | 0, _, p => (p, [])
  | fuel + 1, pageToken, p =>
    match listM pageToken with
    | none => (p, [pageToken])
    | some resp =>
      let p2 := pageStep parse fd fetch resp p
      if resp.NextPageToken = "" then (p2, [pageToken])
      else
        let r := processPages parse fd fetch listM fuel resp.NextPageToken p2
        (r.1, pageToken :: r.2)

/-- `processInbox`: run the paging loop starting from the empty page token,
then set `isProcessing = false` whatever way the loop ended. -/
def processInbox (parse : String → String → Option GoTime) (fd : GoTime → String)
    (fetch : String → Option RawMessage) (listM : String → Option ListPage)
    (fuel : Nat) (p : ProcState) : ProcState × List String :=
  let r := processPages parse fd fetch listM fuel "" p
  ({ r.1 with isProcessing := false }, r.2)

/-- Total number of message ids carried by the successfully listed pages of
a request trace (a failed listing contributes nothing). -/
def totalListed (listM : String → Option ListPage) : List String → Nat
  | [] => 0
  | t :: ts =>
    (match listM t with
     | some pg => pg.Messages.length
     | none => 0) + totalListed listM ts

/-- `GetProgress`: the `{totalEmails, isProcessing}` map. -/
def GetProgress (p : ProcState) : Nat × Bool :=
  (p.stats.TotalEmails, p.isProcessing)

/-- `StartProcessing`: error when a run is already in progress, otherwise
flip the flag (the `go p.processInbox()` launch is modelled by
`processInbox` above acting on the started state). -/
def StartProcessing (p : ProcState) : Except String ProcState :=
  if p.isProcessing then Except.error "processing already in progress"
  else Except.ok { p with isProcessing := true }

/-- The local `emailCount` struct of `GetTopSenders` (the JSON maps built at
the end carry exactly these three fields). -/
structure SenderEntry where
  Email : String
  Count : Nat
  Size : Int
  deriving Repr, DecidableEq

/-- One pass of the inner `for j := i + 1` loop of `GetTopSenders`, with
`x` the entry currently in slot `i`: whenever a later entry has a strictly
larger count the two are swapped.  Returns the entry left in slot `i`
together with the later slots as the loop leaves them. -/
def selectPass : SenderEntry → List SenderEntry → SenderEntry × List SenderEntry
  | x, [] => (x, [])
  | x, y :: ys =>
    if x.Count < y.Count then
      ((selectPass y ys).1, x :: (selectPass y ys).2)
    else
      ((selectPass x ys).1, y :: (selectPass x ys).2)

/-- The double swap loop of `GetTopSenders`: the outer loop runs once per
slot, so fuel = list length reproduces it exactly (`selectPass` preserves
length, so the fuel never runs out on the code's own inputs). -/
def sortSendersFuel : Nat → List SenderEntry → List SenderEntry
  | 0, l => l
  | _ + 1, [] => []
  | fuel + 1, x :: xs => (selectPass x xs).1 :: sortSendersFuel fuel (selectPass x xs).2

/-- The in-place sort of `GetTopSenders` (descending by `Count`). -/
def sortSenders (l : List SenderEntry) : List SenderEntry :=
  sortSendersFuel l.length l

/-- The `senders` slice built from iterating `p.stats.FromCount`; `keys` is
the iteration order of the map (unspecified in Go, so kept abstract). -/
def sendersOf (keys : List String) (st : EmailStats) : List SenderEntry :=
  keys.map (fun e => { Email := e, Count := st.FromCount e, Size := st.FromSize e })

/-- `GetTopSenders`: build the slice, sort it, clamp `n` to the length and
take the prefix. -/
def GetTopSenders (n : Nat) (keys : List String) (st : EmailStats) : List SenderEntry :=
  let senders := sortSenders (sendersOf keys st)
  let n2 := if n > senders.length then senders.length else n
  senders.take n2

/-- `ProcessorRegistry`: the map from user id to processor.  Handlers key it
by a byte slice of the access token, so the key type is a byte list. -/
def Registry : Type := List Nat → Option ProcState

/-- `Registry.Get`. -/
def registryGet (r : Registry) (userID : List Nat) : Option ProcState :=
  r userID

/-- `Registry.Register`. -/
def registryRegister (r : Registry) (userID : List Nat) (p : ProcState) : Registry :=
  fun k => if k = userID then some p else r k

/-- `Registry.Remove`. -/
def registryRemove (r : Registry) (userID : List Nat) : Registry :=
  fun k => if k = userID then none else r k

/-- The empty registry (`make(map[string]*InboxProcessor)`). -/
def emptyRegistry : Registry := fun _ => none

/-- Go string slicing `s[:high]` on the token's bytes: panics (modelled as
`none`) when `high` exceeds the length. -/
def goStringSlice (s : List Nat) (high : Nat) : Option (List Nat) :=
  if high ≤ s.length then some (s.take high) else none

/-- `userID := token.AccessToken[:10]`, as written in all four handlers of
inbox_handlers.go: a 10-byte slice with no length check. -/
def deriveUserID (accessToken : List Nat) : Option (List Nat) :=
  goStringSlice accessToken 10

/-- `HandleStartProcessingInbox` after a token was parsed, starting from the
user-id slice.  In Go the registry stores a pointer that `StartProcessing`
mutates, so the registered value reflects the started processor. -/
def HandleStart (reg : Registry) (userID : List Nat) : Registry × Except String (Nat × Bool) :=
  match registryGet reg userID with
  | some proc => (reg, Except.ok (GetProgress proc))
  | none =>
    match StartProcessing initProc with
    | Except.ok started => (registryRegister reg userID started, Except.ok (GetProgress started))
    | Except.error e => (registryRegister reg userID initProc, Except.error e)

/-- `HandleStartProcessingInbox` from the parsed token's bytes onward:
`none` models the slice panic for tokens shorter than 10 bytes. -/
def handleStartHTTP (reg : Registry) (accessToken : List Nat) :
    Option (Registry × Except String (Nat × Bool)) :=
  match deriveUserID accessToken with
  | none => none
  | some uid => some (HandleStart reg uid)

/-- `HandleGetInboxStatus` from the parsed token's bytes onward. -/
def handleStatusHTTP (reg : Registry) (accessToken : List Nat) :
    Option (Except String (Nat × Bool)) :=
  match deriveUserID accessToken with
  | none => none
  | some uid =>
    match registryGet reg uid with
    | none => some (Except.error "No processing found for this user")
    | some p => some (Except.ok (GetProgress p))

/-- `HandleGetTopSenders` from the parsed token's bytes onward (`keys` is
the stats map's iteration order, as in `GetTopSenders`). -/
def handleTopSendersHTTP (reg : Registry) (keys : List String) (accessToken : List Nat) :
    Option (Except String (List SenderEntry)) :=
  match deriveUserID accessToken with
  | none => none
  | some uid =>
    match registryGet reg uid with
    | none => some (Except.error "No processing found for this user")
    | some p => some (Except.ok (GetTopSenders 20 keys p.stats))

/-- `HandleGetEmailStats` from the parsed token's bytes onward. -/
def handleStatsHTTP (reg : Registry) (accessToken : List Nat) :
    Option (Except String EmailStats) :=
  match deriveUserID accessToken with
  | none => none
  | some uid =>
    match registryGet reg uid with
    | none => some (Except.error "No processing found for this user")
    | some p => some (Except.ok p.stats)

/-- Sample metadata used by witnesses. -/
def mA : EmailMetadata :=
  { ID := "id1", ThreadID := "t1", From := "a@x.com", To := ["b@y.com"],
    Subject := "s", Date := 7, Snippet := "sn", LabelIDs := [], SizeEstimate := 5 }

/-- A second sample metadata (same sender) used by witnesses. -/
def mB : EmailMetadata :=
  { ID := "id2", ThreadID := "t2", From := "a@x.com", To := ["c@z.com"],
    Subject := "s2", Date := 0, Snippet := "sn2", LabelIDs := ["L"], SizeEstimate := 3 }

/-- A third sample metadata (distinct sender) used by witnesses. -/
def mC : EmailMetadata :=
  { ID := "id3", ThreadID := "t3", From := "c@z.com", To := ["b@y.com", "b@y.com"],
    Subject := "s3", Date := 9, Snippet := "sn3", LabelIDs := [], SizeEstimate := 2 }

/-- A registry holding one started processor, used by witnesses. -/
def regW : Registry := registryRegister emptyRegistry [1, 2, 3] initProc

/-! ### Shared lemmas about the statistics accumulator -/

/-- Two single-key increments on a Go counter map commute. -/
theorem bump_comm (f : String → Nat) (a b : String) :
    bump (bump f a) b = bump (bump f b) a := by
  funext s
  simp only [bump]
  by_cases h1 : s = b <;> by_cases h2 : s = a <;> subst_vars <;> simp_all

/-- Value of the recipient-count map after the `for _, to := range
metadata.To` loop: each key grows by its number of occurrences in `To`. -/
theorem foldlBump_apply (tos : List String) (g : String → Nat) (r : String) :
    (tos.foldl (fun g2 t => bump g2 t) g) r = g r + tos.count r := by
  induction tos generalizing g with
  | nil => simp
  | cons t ts ih =>
    rw [List.foldl_cons, ih]
    simp only [bump, List.count_cons]
    by_cases h : r = t
    · subst h
      simp
      omega
    · have ht : (t == r) = false := by
        simp [BEq.beq]
        exact fun hc => h hc.symm
      simp [h, ht]

/-- `recordStats` leaves the total-processed counter untouched. -/
theorem recordStats_TotalEmails (fd : GoTime → String) (m : EmailMetadata) (st : EmailStats) :
    (recordStats fd m st).TotalEmails = st.TotalEmails := rfl

/-- Recording a batch of records never changes the total-processed
counter. -/
theorem runRecords_TotalEmails (fd : GoTime → String) (ms : List EmailMetadata) (st : EmailStats) :
    (runRecords fd ms st).TotalEmails = st.TotalEmails := by
  induction ms generalizing st with
  | nil => rfl
  | cons m ms ih => simpa [runRecords, List.foldl_cons] using ih (recordStats fd m st)

/-- Sender count after a batch of records: the old value plus the number of
records whose `From` is that sender. -/
theorem runRecords_FromCount (fd : GoTime → String) (ms : List EmailMetadata)
    (st : EmailStats) (s : String) :
    (runRecords fd ms st).FromCount s
      = st.FromCount s + ms.countP (fun m => m.From == s) := by
  induction ms generalizing st with
  | nil => simp [runRecords]
  | cons m ms ih =>
    rw [runRecords, List.foldl_cons]
    have := ih (recordStats fd m st)
    rw [runRecords] at this
    rw [this]
    simp only [recordStats, bump, List.countP_cons]
    by_cases h : s = m.From
    · subst h
      simp
      omega
    · have hb : (m.From == s) = false := by
        simp [BEq.beq]
        exact fun hc => h hc.symm
      simp [h, hb]

/-- Sender byte total after a batch of records: the old value plus the sum
of the size estimates of that sender's records. -/
theorem runRecords_FromSize (fd : GoTime → String) (ms : List EmailMetadata)
    (st : EmailStats) (s : String) :
    (runRecords fd ms st).FromSize s
      = st.FromSize s + ((ms.filter (fun m => m.From == s)).map (fun m => m.SizeEstimate)).sum := by
  induction ms generalizing st with
  | nil => simp [runRecords]
  | cons m ms ih =>
    rw [runRecords, List.foldl_cons]
    have := ih (recordStats fd m st)
    rw [runRecords] at this
    rw [this]
    simp only [recordStats, List.filter_cons]
    by_cases h : s = m.From
    · subst h
      simp
      omega
    · have hb : (m.From == s) = false := by
        simp [BEq.beq]
        exact fun hc => h hc.symm
      simp [h, hb]

/-- Two `recordStats` calls commute: all counter updates are plain
increments and additions, so the aggregates are independent of the order in
which the per-message goroutines reach the lock. -/
theorem recordStats_comm (fd : GoTime → String) (m m2 : EmailMetadata) (st : EmailStats) :
    recordStats fd m (recordStats fd m2 st) = recordStats fd m2 (recordStats fd m st) := by
  refine EmailStats.ext ?_ ?_ ?_ ?_ ?_
  · exact bump_comm st.FromCount m2.From m.From
  · funext r
    simp only [recordStats]
    rw [foldlBump_apply, foldlBump_apply, foldlBump_apply, foldlBump_apply]
    omega
  · funext s
    simp only [recordStats]
    by_cases h1 : s = m.From <;> by_cases h2 : s = m2.From <;>
      subst_vars <;> simp_all <;> omega
  · simp only [recordStats]
    by_cases h1 : m.Date = 0 <;> by_cases h2 : m2.Date = 0 <;> simp [h1, h2]
    exact bump_comm st.DateCount (fd m2.Date) (fd m.Date)
  · rfl

/-! ### Shared lemmas about the ingestion loop -/

/-- `processMessage` never changes the total-processed counter. -/
theorem processMessage_TotalEmails (parse : String → String → Option GoTime)
    (fd : GoTime → String) (fetch : String → Option RawMessage) (mid : String) (p : ProcState) :
    (processMessage parse fd fetch mid p).stats.TotalEmails = p.stats.TotalEmails := by
  unfold processMessage
  cases fetch mid <;> rfl

/-- A page's fan-out leaves the total-processed counter unchanged. -/
theorem processIds_TotalEmails (parse : String → String → Option GoTime)
    (fd : GoTime → String) (fetch : String → Option RawMessage) (ids : List String)
    (p : ProcState) :
    (processIds parse fd fetch ids p).stats.TotalEmails = p.stats.TotalEmails := by
  induction ids generalizing p with
  | nil => rfl
  | cons i ids ih =>
    simp only [processIds, List.foldl_cons] at ih ⊢
    rw [ih, processMessage_TotalEmails]

/-- One listed page adds exactly its listed-message count to the
total-processed counter. -/
theorem pageStep_TotalEmails (parse : String → String → Option GoTime)
    (fd : GoTime → String) (fetch : String → Option RawMessage) (pg : ListPage)
    (p : ProcState) :
    (pageStep parse fd fetch pg p).stats.TotalEmails
      = p.stats.TotalEmails + pg.Messages.length := by
  simp only [pageStep]
  rw [processIds_TotalEmails]

/-- The final total-processed counter of a run equals the initial one plus
the number of message ids listed by the successfully fetched pages of the
request trace. -/
theorem processPages_TotalEmails (parse : String → String → Option GoTime)
    (fd : GoTime → String) (fetch : String → Option RawMessage)
    (listM : String → Option ListPage) (fuel : Nat) (t : String) (p : ProcState) :
    (processPages parse fd fetch listM fuel t p).1.stats.TotalEmails
      = p.stats.TotalEmails
        + totalListed listM (processPages parse fd fetch listM fuel t p).2 := by
  induction fuel generalizing t p with
  | zero => simp [processPages, totalListed]
  | succ fuel ih =>
    rw [processPages]
    cases hl : listM t with
    | none => simp [totalListed, hl]
    | some resp =>
      by_cases hnext : resp.NextPageToken = ""
      · simp only [hnext, if_pos rfl]
        simp [totalListed, hl, pageStep_TotalEmails]
      · simp only [if_neg hnext]
        rw [ih]
        simp [totalListed, hl, pageStep_TotalEmails]
        omega

/-! ### Shared lemmas about the top-senders selection sort -/

/-- The inner swap loop does not change the number of later slots. -/
theorem selectPass_length (x : SenderEntry) (xs : List SenderEntry) :
    ((selectPass x xs).2).length = xs.length := by
  induction xs generalizing x with
  | nil => rfl
  | cons y ys ih =>
    by_cases h : x.Count < y.Count <;> simp [selectPass, h, ih]

/-- The inner swap loop only rearranges the entries it touches. -/
theorem selectPass_perm (x : SenderEntry) (xs : List SenderEntry) :
    List.Perm ((selectPass x xs).1 :: (selectPass x xs).2) (x :: xs) := by
  induction xs generalizing x with
  | nil => exact List.Perm.refl _
  | cons y ys ih =>
    by_cases h : x.Count < y.Count
    · simp only [selectPass, if_pos h]
      exact (List.Perm.swap x (selectPass y ys).1 (selectPass y ys).2).trans ((ih y).cons x)
    · simp only [selectPass, if_neg h]
      exact ((List.Perm.swap y (selectPass x ys).1 (selectPass x ys).2).trans
        ((ih x).cons y)).trans (List.Perm.swap x y ys)

/-- The entry left in the scanned slot has a count at least as large as the
one it started with. -/
theorem selectPass_self_le (x : SenderEntry) (xs : List SenderEntry) :
    x.Count ≤ ((selectPass x xs).1).Count := by
  induction xs generalizing x with
  | nil => exact Nat.le_refl _
  | cons y ys ih =>
    by_cases h : x.Count < y.Count
    · simp only [selectPass, if_pos h]
      exact Nat.le_trans (Nat.le_of_lt h) (ih y)
    · simp only [selectPass, if_neg h]
      exact ih x

/-- After the inner swap loop the scanned slot holds a maximal count. -/
theorem selectPass_max (x : SenderEntry) (xs : List SenderEntry) :
    ∀ z ∈ (selectPass x xs).2, z.Count ≤ ((selectPass x xs).1).Count := by
  induction xs generalizing x with
  | nil => intro z hz; simp [selectPass] at hz
  | cons y ys ih =>
    by_cases h : x.Count < y.Count
    · simp only [selectPass, if_pos h]
      intro z hz
      rcases List.mem_cons.mp hz with hz | hz
      · subst hz
        exact Nat.le_trans (Nat.le_of_lt h) (selectPass_self_le y ys)
      · exact ih y z hz
    · simp only [selectPass, if_neg h]
      intro z hz
      rcases List.mem_cons.mp hz with hz | hz
      · subst hz
        exact Nat.le_trans (Nat.le_of_not_lt h) (selectPass_self_le x ys)
      · exact ih x z hz

/-- With enough fuel the swap sort is a permutation of its input. -/
theorem sortSendersFuel_perm (fuel : Nat) (l : List SenderEntry) (h : l.length ≤ fuel) :
    List.Perm (sortSendersFuel fuel l) l := by
  induction fuel generalizing l with
  | zero => exact List.Perm.refl _
  | succ fuel ih =>
    cases l with
    | nil => exact List.Perm.refl _
    | cons x xs =>
      simp only [sortSendersFuel]
      have hlen : (selectPass x xs).2.length ≤ fuel := by
        rw [selectPass_length]
        simpa using h
      exact ((ih _ hlen).cons _).trans (selectPass_perm x xs)

/-- With enough fuel the swap sort yields non-increasing counts. -/
theorem sortSendersFuel_pairwise (fuel : Nat) (l : List SenderEntry) (h : l.length ≤ fuel) :
    List.Pairwise (fun a b => b.Count ≤ a.Count) (sortSendersFuel fuel l) := by
  induction fuel generalizing l with
  | zero =>
    have : l = [] := List.eq_nil_of_length_eq_zero (Nat.le_zero.mp h)
    subst this
    exact List.Pairwise.nil
  | succ fuel ih =>
    cases l with
    | nil => exact List.Pairwise.nil
    | cons x xs =>
      simp only [sortSendersFuel]
      have hlen : (selectPass x xs).2.length ≤ fuel := by
        rw [selectPass_length]
        simpa using h
      refine List.Pairwise.cons ?_ (ih _ hlen)
      intro b hb
      have hb2 : b ∈ (selectPass x xs).2 :=
        (sortSendersFuel_perm fuel _ hlen).mem_iff.mp hb
      exact selectPass_max x xs b hb2

/-- `GetTopSenders`' sort is a permutation of the senders slice. -/
theorem sortSenders_perm (l : List SenderEntry) : List.Perm (sortSenders l) l :=
  sortSendersFuel_perm l.length l (Nat.le_refl _)

/-- `GetTopSenders`' sort is descending in the count field. -/
theorem sortSenders_pairwise (l : List SenderEntry) :
    List.Pairwise (fun a b => b.Count ≤ a.Count) (sortSenders l) :=
  sortSendersFuel_pairwise l.length l (Nat.le_refl _)

/-- `GetTopSenders`' sort preserves length. -/
theorem sortSenders_length (l : List SenderEntry) : (sortSenders l).length = l.length :=
  (sortSenders_perm l).length_eq

/-! ### Shared lemmas about address extraction -/

/-- String append acts as list append on the character data. -/
theorem stringToList_append (s t : String) : (s ++ t).toList = s.toList ++ t.toList := by
  cases s
  cases t
  rfl

/-- Rebuilding a string from its own characters is the identity. -/
theorem stringMk_toList (s : String) : String.mk s.toList = s := by
  cases s
  rfl

/-- The forward scan finds nothing when no character matches. -/
theorem findIdxFrom_none (p : Char → Bool) (l : List Char) (h : ∀ x ∈ l, p x = false) :
    findIdxFrom p l = none := by
  induction l with
  | nil => rfl
  | cons c cs ih =>
    simp only [findIdxFrom]
    rw [h c (List.mem_cons_self c cs)]
    simp [ih (fun x hx => h x (List.mem_cons_of_mem c hx))]

/-- The forward scan stops at the first matching character. -/
theorem findIdxFrom_marker (p : Char → Bool) (l1 : List Char) (c : Char) (l2 : List Char)
    (h : ∀ x ∈ l1, p x = false) (hc : p c = true) :
    findIdxFrom p (l1 ++ c :: l2) = some l1.length := by
  induction l1 with
  | nil => simp [findIdxFrom, hc]
  | cons a l1 ih =>
    simp only [List.cons_append, findIdxFrom]
    rw [h a (List.mem_cons_self a l1)]
    simp [ih (fun x hx => h x (List.mem_cons_of_mem a hx))]

/-- Extraction of a `Display Name <address>` header: the slice strictly
between the first opening and the last closing bracket. -/
theorem extractEmailAddress_bracketed (name addr : String)
    (hn : ∀ c ∈ name.toList, c ≠ '<' ∧ c ≠ '>')
    (hane : addr ≠ "") :
    extractEmailAddress (name ++ "<" ++ addr ++ ">") = addr := by
  have hlt : ("<" : String).toList = ['<'] := rfl
  have hgt : (">" : String).toList = ['>'] := rfl
  have hcs : (name ++ "<" ++ addr ++ ">").toList
      = name.toList ++ '<' :: (addr.toList ++ ['>']) := by
    simp [stringToList_append, hlt, hgt]
  have hfind : findIdxFrom (fun c => c == '<')
      (name.toList ++ '<' :: (addr.toList ++ ['>'])) = some name.toList.length := by
    refine findIdxFrom_marker _ _ _ _ (fun x hx => ?_) (by simp)
    simp [(hn x hx).1]
  have hstart : startIdx (name.toList ++ '<' :: (addr.toList ++ ['>']))
      = name.toList.length + 1 := by
    rw [startIdx, hfind]
  have hshape : name.toList ++ '<' :: (addr.toList ++ ['>'])
      = (name.toList ++ '<' :: addr.toList) ++ ['>'] := by
    simp
  have hrev : findIdxFrom (fun c => c == '>')
      (name.toList ++ '<' :: (addr.toList ++ ['>'])).reverse = some 0 := by
    rw [hshape, List.reverse_append]
    simp [findIdxFrom]
  have hlast : lastIdxGt (name.toList ++ '<' :: (addr.toList ++ ['>']))
      = some (name.toList.length + addr.toList.length + 1) := by
    rw [lastIdxGt, hrev]
    simp
    omega
  have hstop : stopIdx (name.toList ++ '<' :: (addr.toList ++ ['>']))
      = name.toList.length + addr.toList.length + 1 := by
    rw [stopIdx, hlast]
  have hane2 : addr.toList ≠ [] := by
    intro hnil
    exact hane (String.ext hnil)
  have hpos : 0 < addr.toList.length := List.length_pos.mpr hane2
  rw [extractEmailAddress, hcs, hstart, hstop, if_pos (by omega)]
  have hdrop : (name.toList ++ '<' :: (addr.toList ++ ['>'])).drop (name.toList.length + 1)
      = addr.toList ++ ['>'] := by
    have hsplit : name.toList ++ '<' :: (addr.toList ++ ['>'])
        = (name.toList ++ ['<']) ++ (addr.toList ++ ['>']) := by simp
    rw [hsplit]
    have hl : name.toList.length + 1 = (name.toList ++ ['<']).length := by simp
    rw [hl, List.drop_left]
  rw [hdrop]
  have hsub : name.toList.length + addr.toList.length + 1 - (name.toList.length + 1)
      = addr.toList.length := by omega
  rw [hsub, List.take_left]
  exact stringMk_toList addr

/-- Extraction of a bracket-free header value: returned unchanged, with no
trimming. -/
theorem extractEmailAddress_bare (bare : String)
    (hb : ∀ c ∈ bare.toList, c ≠ '<' ∧ c ≠ '>') :
    extractEmailAddress bare = bare := by
  by_cases hnil : bare.toList = []
  · have hempty : bare = "" := String.ext hnil
    subst hempty
    rfl
  · have hfind : findIdxFrom (fun c => c == '<') bare.toList = none := by
      refine findIdxFrom_none _ _ (fun x hx => ?_)
      simp [(hb x hx).1]
    have hstart : startIdx bare.toList = 0 := by
      rw [startIdx, hfind]
    have hrev : findIdxFrom (fun c => c == '>') bare.toList.reverse = none := by
      refine findIdxFrom_none _ _ (fun x hx => ?_)
      simp [(hb x (List.mem_reverse.mp hx)).2]
    have hlast : lastIdxGt bare.toList = none := by
      rw [lastIdxGt, hrev]
      rfl
    have hstop : stopIdx bare.toList = bare.toList.length := by
      rw [stopIdx, hlast]
    rw [extractEmailAddress, hstart, hstop, if_pos (List.length_pos.mpr hnil)]
    rw [List.drop_zero, Nat.sub_zero, List.take_length]
    exact stringMk_toList bare

/-! ### Claim theorems -/

/-- C5: feeding one successfully extracted record to the accumulator
increments exactly one sender-count entry by one, increases exactly one
sender-size entry by the record's byte-size estimate, increments each
recipient's count (once per occurrence in `To`, so at least once per
distinct recipient, and no entry outside `To` changes), and increments
exactly one calendar-day count exactly when the timestamp parsed; a record
without a parsed timestamp still contributes to the sender and recipient
aggregates because those updates are unconditional. -/
theorem record_stats_invariant (fd : GoTime → String) (m : EmailMetadata) (st : EmailStats) :
    (recordStats fd m st).FromCount m.From = st.FromCount m.From + 1
    ∧ (∀ s, s ≠ m.From → (recordStats fd m st).FromCount s = st.FromCount s)
    ∧ (recordStats fd m st).FromSize m.From = st.FromSize m.From + m.SizeEstimate
    ∧ (∀ s, s ≠ m.From → (recordStats fd m st).FromSize s = st.FromSize s)
    ∧ (∀ r, (recordStats fd m st).ToCount r = st.ToCount r + m.To.count r)
    ∧ (∀ r, r ∉ m.To → (recordStats fd m st).ToCount r = st.ToCount r)
    ∧ (m.Date ≠ 0 →
        (recordStats fd m st).DateCount (fd m.Date) = st.DateCount (fd m.Date) + 1
        ∧ ∀ d, d ≠ fd m.Date → (recordStats fd m st).DateCount d = st.DateCount d)
    ∧ (m.Date = 0 → (recordStats fd m st).DateCount = st.DateCount) := by
  refine ⟨?_, ?_, ?_, ?_, ?_, ?_, ?_, ?_⟩
  · simp [recordStats, bump]
  · intro s hs
    simp [recordStats, bump, hs]
  · simp [recordStats]
  · intro s hs
    simp [recordStats, hs]
  · intro r
    simp only [recordStats]
    exact foldlBump_apply m.To st.ToCount r
  · intro r hr
    simp only [recordStats]
    rw [foldlBump_apply]
    rw [List.count_eq_zero.mpr hr]
    exact Nat.add_zero _
  · intro hd
    constructor
    · simp [recordStats, bump, hd]
    · intro d hdd
      simp [recordStats, bump, hd, hdd]
  · intro hd
    simp [recordStats, hd]

/-- C5 witness: the invariant evaluated on a concrete record. -/
theorem record_stats_invariant_witness :
    (recordStats (fun _ => "d") mA emptyStats).FromCount mA.From
      = emptyStats.FromCount mA.From + 1 :=
  (record_stats_invariant (fun _ => "d") mA emptyStats).1

/-- C7: when the per-message detail fetch fails, `processMessage` returns
the state unchanged — nothing is appended to the collection and no
aggregate entry moves — and the remaining ids of the page produce the same
result as if the failed id had not been listed at all; the function has no
error channel, so the failure cannot surface to the caller. -/
theorem message_failure_isolated (parse : String → String → Option GoTime)
    (fd : GoTime → String) (fetch : String → Option RawMessage) (mid : String)
    (p : ProcState) (hfail : fetch mid = none) :
    processMessage parse fd fetch mid p = p
    ∧ ∀ ids1 ids2 q, processIds parse fd fetch (ids1 ++ mid :: ids2) q
        = processIds parse fd fetch (ids1 ++ ids2) q := by
  have hskip : ∀ q : ProcState, processMessage parse fd fetch mid q = q := by
    intro q
    simp [processMessage, hfail]
  refine ⟨hskip p, ?_⟩
  intro ids1 ids2 q
  simp only [processIds, List.foldl_append, List.foldl_cons]
  rw [hskip]

/-- C7 witness: a fetch that fails on id `"bad"` leaves the fresh state
untouched. -/
theorem message_failure_isolated_witness :
    ((fun _ => none) : String → Option RawMessage) "bad" = none
    ∧ processMessage (fun _ _ => none) (fun _ => "") (fun _ => none) "bad" initProc
        = initProc :=
  ⟨rfl, (message_failure_isolated (fun _ _ => none) (fun _ => "")
    (fun _ => none) "bad" initProc rfl).1⟩

/-- C9: the Date header is parsed by trying an ordered list of formats
(RFC1123Z first, then the fallback slice) and the first parse that
succeeds wins; when every format fails the metadata's timestamp stays at
the zero value, in which case the record adds nothing to the day-count
aggregate while its sender and recipients are still counted. -/
theorem date_parsing_spec (parse : String → String → Option GoTime) (v : String)
    (md : EmailMetadata) (fd : GoTime → String) (st : EmailStats)
    (hfail : ∀ f ∈ timeRFC1123Z :: goFormats, parse f v = none) :
    (∀ q w, tryParseDate q w = firstParse q (timeRFC1123Z :: goFormats) w)
    ∧ tryParseDate parse v = none
    ∧ applyHeader parse md { Name := "Date", Value := v } = md
    ∧ (md.Date = 0 →
        (recordStats fd md st).DateCount = st.DateCount
        ∧ (recordStats fd md st).FromCount md.From = st.FromCount md.From + 1
        ∧ ∀ r, (recordStats fd md st).ToCount r = st.ToCount r + md.To.count r) := by
  have hfirst : ∀ q w, tryParseDate q w = firstParse q (timeRFC1123Z :: goFormats) w := by
    intro q w
    cases hq : q timeRFC1123Z w <;> simp [tryParseDate, firstParse, hq]
  have hz : parse timeRFC1123Z v = none := hfail timeRFC1123Z (by simp)
  have h1 : parse timeRFC1123 v = none := hfail timeRFC1123 (by simp [goFormats])
  have h2 : parse "Mon, 2 Jan 2006 15:04:05 -0700" v = none :=
    hfail "Mon, 2 Jan 2006 15:04:05 -0700" (by simp [goFormats])
  have h3 : parse "Mon, 2 Jan 2006 15:04:05 -0700 (MST)" v = none :=
    hfail "Mon, 2 Jan 2006 15:04:05 -0700 (MST)" (by simp [goFormats])
  have hnone : tryParseDate parse v = none := by
    rw [tryParseDate, hz]
    simp [goFormats, firstParse, hz, h1, h2, h3]
  refine ⟨hfirst, hnone, ?_, ?_⟩
  · simp [applyHeader, hnone]
  · intro hd
    refine ⟨by simp [recordStats, hd], by simp [recordStats, bump], ?_⟩
    intro r
    simp only [recordStats]
    exact foldlBump_apply md.To st.ToCount r

/-- C9 witness: with a parser rejecting everything, the Date header leaves
the sample record unchanged. -/
theorem date_parsing_spec_witness :
    (∀ f ∈ timeRFC1123Z :: goFormats, (fun _ _ => (none : Option GoTime)) f "junk" = none)
    ∧ applyHeader (fun _ _ => none) mB { Name := "Date", Value := "junk" } = mB :=
  ⟨fun _ _ => rfl,
    (date_parsing_spec (fun _ _ => none) "junk" mB (fun _ => "") emptyStats
      (fun _ _ => rfl)).2.2.1⟩

/-- C1 counterexample: `record()` (the statistics update of
`processMessage`) does not increment the total-processed counter; after one
record call on fresh statistics `totalEmails` is still 0, not 1. -/
theorem record_total_counterexample :
    (recordStats (fun _ => "") mA emptyStats).TotalEmails ≠ 1 := by
  simp [recordStats, emptyStats]

/-- C1 (amended): each `record()` call atomically updates the sender count,
sender byte total, recipient counts and the day count, but leaves the
total-processed counter unchanged; `totalEmails` is instead incremented
once per page by the number of listed message ids, so a run's final total
equals the number of ids listed by its successfully fetched pages; and two
record calls commute, so the aggregates are independent of the
interleaving of the per-message workers. -/
theorem total_processed_page_level_spec (parse : String → String → Option GoTime)
    (fd : GoTime → String) (fetch : String → Option RawMessage)
    (listM : String → Option ListPage) (fuel : Nat) (t : String) (p : ProcState)
    (m m2 : EmailMetadata) (st : EmailStats) :
    (recordStats fd m st).TotalEmails = st.TotalEmails
    ∧ (processPages parse fd fetch listM fuel t p).1.stats.TotalEmails
        = p.stats.TotalEmails
          + totalListed listM (processPages parse fd fetch listM fuel t p).2
    ∧ recordStats fd m (recordStats fd m2 st) = recordStats fd m2 (recordStats fd m st) :=
  ⟨recordStats_TotalEmails fd m st,
   processPages_TotalEmails parse fd fetch listM fuel t p,
   recordStats_comm fd m m2 st⟩

/-- C6: a failed page-level listing call aborts the whole run at that
point: the loop returns the state exactly as accumulated so far (statistics
retained, nothing dropped, nothing retried) and the trace shows no further
listing request; `processInbox` then leaves the processor idle. -/
theorem listing_failure_aborts_run (parse : String → String → Option GoTime)
    (fd : GoTime → String) (fetch : String → Option RawMessage)
    (listM : String → Option ListPage) (fuel : Nat) (t : String) (p : ProcState)
    (hfail : listM t = none) :
    processPages parse fd fetch listM (fuel + 1) t p = (p, [t])
    ∧ ∀ fuel2 q, ((processInbox parse fd fetch listM fuel2 q).1).isProcessing = false := by
  constructor
  · rw [processPages, hfail]
  · intro fuel2 q
    rfl

/-- C6 witness: a listing that always fails ends the run immediately with
the initial state intact. -/
theorem listing_failure_aborts_run_witness :
    ((fun _ => none) : String → Option ListPage) "" = none
    ∧ processPages (fun _ _ => none) (fun _ => "") (fun _ => none) (fun _ => none) 1 "" initProc
        = (initProc, [""]) :=
  ⟨rfl, (listing_failure_aborts_run (fun _ _ => none) (fun _ => "") (fun _ => none)
    (fun _ => none) 0 "" initProc rfl).1⟩

/-- C8: a page response carrying an empty `nextPageToken` ends the loop
right after that page's units are processed — the trace contains only that
one listing request — and the run finishes with `isProcessing = false`. -/
theorem empty_token_terminates_run (parse : String → String → Option GoTime)
    (fd : GoTime → String) (fetch : String → Option RawMessage)
    (listM : String → Option ListPage) (fuel : Nat) (p : ProcState) (pg : ListPage)
    (hpg : listM "" = some pg) (hempty : pg.NextPageToken = "") :
    processInbox parse fd fetch listM (fuel + 1) p
      = ({ pageStep parse fd fetch pg p with isProcessing := false }, [""])
    ∧ ∀ t q, listM t = some pg →
        processPages parse fd fetch listM (fuel + 1) t q
          = (pageStep parse fd fetch pg q, [t]) := by
  have hstep : ∀ t q, listM t = some pg →
      processPages parse fd fetch listM (fuel + 1) t q
        = (pageStep parse fd fetch pg q, [t]) := by
    intro t q hq
    rw [processPages, hq]
    simp [hempty]
  refine ⟨?_, hstep⟩
  rw [processInbox, hstep "" p hpg]

/-- C8 witness: a single page with no next-page cursor and no messages ends
the run after that page, idle. -/
theorem empty_token_terminates_run_witness :
    ((fun _ => some { Messages := [], NextPageToken := "" }) : String → Option ListPage) ""
      = some { Messages := [], NextPageToken := "" }
    ∧ processPages (fun _ _ => none) (fun _ => "") (fun _ => none)
        (fun _ => some { Messages := [], NextPageToken := "" }) 1 "tk" initProc
        = (pageStep (fun _ _ => none) (fun _ => "") (fun _ => none)
            { Messages := [], NextPageToken := "" } initProc, ["tk"]) :=
  ⟨rfl, (empty_token_terminates_run (fun _ _ => none) (fun _ => "") (fun _ => none)
    (fun _ => some { Messages := [], NextPageToken := "" }) 0 initProc
    { Messages := [], NextPageToken := "" } rfl rfl).2 "tk" initProc rfl⟩

/-- C2: `StartProcessing` fails (with the already-in-progress error) if and
only if the run flag is set; otherwise it flips the flag and returns
successfully, changing nothing else.  At the handler level a second start
for an identity that already has a registered processor returns that same
run's progress and leaves both the registry and the run state untouched, so
no message can be counted twice. -/
theorem start_processing_spec (p q : ProcState) (reg : Registry) (uid : List Nat)
    (hreg : registryGet reg uid = some q) :
    (StartProcessing p = Except.error "processing already in progress"
      ↔ p.isProcessing = true)
    ∧ (p.isProcessing = false →
        StartProcessing p = Except.ok { p with isProcessing := true })
    ∧ HandleStart reg uid = (reg, Except.ok (GetProgress q)) := by
  refine ⟨?_, ?_, ?_⟩
  · by_cases h : p.isProcessing <;> simp [StartProcessing, h]
  · intro h
    simp [StartProcessing, h]
  · rw [HandleStart, hreg]

/-- C2 witness: starting again for a user whose processor is registered
returns that processor's progress and leaves the registry unchanged. -/
theorem start_processing_spec_witness :
    registryGet regW [1, 2, 3] = some initProc
    ∧ HandleStart regW [1, 2, 3] = (regW, Except.ok (GetProgress initProc)) :=
  ⟨by simp [regW, registryRegister, registryGet],
   (start_processing_spec initProc initProc regW [1, 2, 3]
     (by simp [regW, registryRegister, registryGet])).2.2⟩

/-- C10: every handler derives the identity key as `AccessToken[:10]` with
no length check; the slice is well-defined exactly when the token has at
least 10 bytes, in which case it is the first 10 bytes, and for any shorter
token — the empty one included — the slice is out of range and the handler
panics (modelled as `none`). -/
theorem token_slice_panics_spec (tok : List Nat) (reg : Registry) (keys : List String) :
    ((deriveUserID tok).isSome ↔ 10 ≤ tok.length)
    ∧ (10 ≤ tok.length → deriveUserID tok = some (tok.take 10))
    ∧ deriveUserID [] = none
    ∧ ((handleStartHTTP reg tok).isSome ↔ 10 ≤ tok.length)
    ∧ ((handleStatusHTTP reg tok).isSome ↔ 10 ≤ tok.length)
    ∧ ((handleTopSendersHTTP reg keys tok).isSome ↔ 10 ≤ tok.length)
    ∧ ((handleStatsHTTP reg tok).isSome ↔ 10 ≤ tok.length) := by
  by_cases h : 10 ≤ tok.length
  · have hsome : deriveUserID tok = some (tok.take 10) := by
      simp [deriveUserID, goStringSlice, h]
    refine ⟨by simp [hsome, h], fun _ => hsome, by simp [deriveUserID, goStringSlice],
      ?_, ?_, ?_, ?_⟩
    · simp [handleStartHTTP, hsome, h]
    · rw [handleStatusHTTP, hsome]
      cases hr : registryGet reg (List.take 10 tok) <;> simp [hr, h]
    · rw [handleTopSendersHTTP, hsome]
      cases hr : registryGet reg (List.take 10 tok) <;> simp [hr, h]
    · rw [handleStatsHTTP, hsome]
      cases hr : registryGet reg (List.take 10 tok) <;> simp [hr, h]
  · have hnone : deriveUserID tok = none := by
      simp [deriveUserID, goStringSlice, h]
    exact ⟨by simp [hnone, h], fun hc => absurd hc h, by simp [deriveUserID, goStringSlice],
      by simp [handleStartHTTP, hnone, h], by simp [handleStatusHTTP, hnone, h],
      by simp [handleTopSendersHTTP, hnone, h], by simp [handleStatsHTTP, hnone, h]⟩

/-- C10 witness: the status handler panics on an empty access token and
succeeds on a 10-byte one. -/
theorem token_slice_panics_spec_witness :
    deriveUserID [] = none
    ∧ ((handleStatusHTTP emptyRegistry [0, 1, 2, 3, 4, 5, 6, 7, 8, 9]).isSome
        ↔ 10 ≤ ([0, 1, 2, 3, 4, 5, 6, 7, 8, 9] : List Nat).length) :=
  ⟨(token_slice_panics_spec [] emptyRegistry []).2.2.1,
   (token_slice_panics_spec [0, 1, 2, 3, 4, 5, 6, 7, 8, 9] emptyRegistry []).2.2.2.2.1⟩



/-- C4 counterexample: extraction does not trim — a bare address surrounded
by whitespace is returned with its whitespace, not as the trimmed value the
claim describes. -/
theorem extract_email_no_trim_counterexample :
    extractEmailAddress " a@b.com " = " a@b.com "
    ∧ specTrim " a@b.com " = "a@b.com"
    ∧ extractEmailAddress " a@b.com " ≠ specTrim " a@b.com " := by
  refine ⟨by decide, by decide, by decide⟩

/-- C4 (amended): when both brackets are present around a non-empty address
(display name free of brackets), extraction returns the substring strictly
between the first opening and the last closing bracket; a value containing
no bracket at all is returned entirely unchanged — with no trimming — so
extraction of a name-plus-address header yields the address and extraction
of a bare address yields it verbatim. -/
theorem extract_email_amended_spec (name addr bare : String)
    (hn : ∀ c ∈ name.toList, c ≠ '<' ∧ c ≠ '>')
    (hane : addr ≠ "")
    (hb : ∀ c ∈ bare.toList, c ≠ '<' ∧ c ≠ '>') :
    extractEmailAddress (name ++ "<" ++ addr ++ ">") = addr
    ∧ extractEmailAddress bare = bare :=
  ⟨extractEmailAddress_bracketed name addr hn hane,
   extractEmailAddress_bare bare hb⟩

/-- C4 witness: the two example headers of the claim, plus an untrimmed
bare value. -/
theorem extract_email_amended_spec_witness :
    extractEmailAddress ("Name " ++ "<" ++ "a@b.com" ++ ">") = "a@b.com"
    ∧ extractEmailAddress " x y " = " x y " :=
  extract_email_amended_spec "Name " "a@b.com" " x y "
    (by decide) (by decide) (by decide)

/-- C3: for every `n` and every statistics state reached by recording a
batch of metadata, `GetTopSenders` returns exactly `min n (number of
distinct senders)` entries, in non-increasing count order, each entry
pairing a recorded sender with its received-count and cumulative byte total
as accumulated from the recorded metadata, and no sender outside the
returned prefix has a count exceeding any returned entry's count.  `keys`
is the iteration order of the `FromCount` map: duplicate-free and holding
exactly the senders with a positive count. -/
theorem get_top_senders_spec (n : Nat) (keys : List String) (fd : GoTime → String)
    (ms : List EmailMetadata)
    (hnd : keys.Nodup)
    (hsupp : ∀ s, s ∈ keys ↔ 0 < (runRecords fd ms emptyStats).FromCount s) :
    (GetTopSenders n keys (runRecords fd ms emptyStats)).length = min n keys.length
    ∧ List.Pairwise (fun a b => b.Count ≤ a.Count)
        (GetTopSenders n keys (runRecords fd ms emptyStats))
    ∧ (∀ e ∈ GetTopSenders n keys (runRecords fd ms emptyStats),
        e.Count = ms.countP (fun m => m.From == e.Email)
        ∧ e.Size = ((ms.filter (fun m => m.From == e.Email)).map
            (fun m => m.SizeEstimate)).sum
        ∧ e.Email ∈ keys)
    ∧ (∀ s, 0 < (runRecords fd ms emptyStats).FromCount s →
        s ∉ (GetTopSenders n keys (runRecords fd ms emptyStats)).map SenderEntry.Email →
        ∀ e ∈ GetTopSenders n keys (runRecords fd ms emptyStats),
          (runRecords fd ms emptyStats).FromCount s ≤ e.Count) := by
  have hGT : GetTopSenders n keys (runRecords fd ms emptyStats)
      = (sortSenders (sendersOf keys (runRecords fd ms emptyStats))).take
          (if n > (sortSenders (sendersOf keys (runRecords fd ms emptyStats))).length
           then (sortSenders (sendersOf keys (runRecords fd ms emptyStats))).length
           else n) := rfl
  have hslen : (sortSenders (sendersOf keys (runRecords fd ms emptyStats))).length
      = keys.length := by
    rw [sortSenders_length]
    simp [sendersOf]
  refine ⟨?_, ?_, ?_, ?_⟩
  · rw [hGT, List.length_take, hslen]
    split_ifs <;> omega
  · rw [hGT]
    exact List.Pairwise.sublist (List.take_sublist _ _)
      (sortSenders_pairwise (sendersOf keys (runRecords fd ms emptyStats)))
  · intro e he
    rw [hGT] at he
    have hsorted : e ∈ sortSenders (sendersOf keys (runRecords fd ms emptyStats)) :=
      List.mem_of_mem_take he
    have hsend : e ∈ sendersOf keys (runRecords fd ms emptyStats) :=
      (sortSenders_perm _).mem_iff.mp hsorted
    rcases List.mem_map.mp hsend with ⟨k, hk, hke⟩
    subst hke
    refine ⟨?_, ?_, hk⟩
    · show (runRecords fd ms emptyStats).FromCount k = _
      rw [runRecords_FromCount]
      simp [emptyStats]
    · show (runRecords fd ms emptyStats).FromSize k = _
      rw [runRecords_FromSize]
      simp [emptyStats]
  · intro s hs hnot e he
    have hk : s ∈ keys := (hsupp s).mpr hs
    have hent : (⟨s, (runRecords fd ms emptyStats).FromCount s,
        (runRecords fd ms emptyStats).FromSize s⟩ : SenderEntry)
        ∈ sendersOf keys (runRecords fd ms emptyStats) := by
      exact List.mem_map_of_mem _ hk
    have hent2 : (⟨s, (runRecords fd ms emptyStats).FromCount s,
        (runRecords fd ms emptyStats).FromSize s⟩ : SenderEntry)
        ∈ sortSenders (sendersOf keys (runRecords fd ms emptyStats)) :=
      (sortSenders_perm _).mem_iff.mpr hent
    set srt := sortSenders (sendersOf keys (runRecords fd ms emptyStats)) with hsrt
    set n2 := if n > srt.length then srt.length else n with hn2
    have h0 : (⟨s, (runRecords fd ms emptyStats).FromCount s,
        (runRecords fd ms emptyStats).FromSize s⟩ : SenderEntry)
        ∈ srt.take n2 ++ srt.drop n2 := by
      rw [List.take_append_drop]
      exact hent2
    have hpw : List.Pairwise (fun a b => b.Count ≤ a.Count) (srt.take n2 ++ srt.drop n2) := by
      rw [List.take_append_drop]
      exact sortSenders_pairwise _
    rcases List.mem_append.mp h0 with hin | hin
    · exfalso
      apply hnot
      rw [hGT]
      exact List.mem_map_of_mem SenderEntry.Email hin
    · rw [hGT] at he
      exact (List.pairwise_append.mp hpw).2.2 e he _ hin

/-- C3 witness: three concrete records (two senders) and the top-1 query. -/
theorem get_top_senders_spec_witness :
    (["a@x.com", "c@z.com"] : List String).Nodup
    ∧ (GetTopSenders 1 ["a@x.com", "c@z.com"]
        (runRecords (fun _ => "d") [mA, mB, mC] emptyStats)).length
      = min 1 (["a@x.com", "c@z.com"] : List String).length := by
  refine ⟨by decide, (get_top_senders_spec 1 ["a@x.com", "c@z.com"] (fun _ => "d")
    [mA, mB, mC] (by decide) ?_).1⟩
  intro s
  rw [runRecords_FromCount]
  constructor
  · intro hmem
    simp only [List.mem_cons, List.not_mem_nil, or_false] at hmem
    rcases hmem with h | h <;> subst h <;> decide
  · intro hpos
    by_cases h1 : s = "a@x.com"
    · simp [h1]
    · by_cases h2 : s = "c@z.com"
      · simp [h2]
      · exfalso
        have hcount : List.countP (fun m => m.From == s) [mA, mB, mC] = 0 := by
          simp [List.countP_cons, mA, mB, mC, beq_iff_eq, Ne.symm h1, Ne.symm h2]
        rw [hcount] at hpos
        simp [emptyStats] at hpos
